import Mathlib

/-!
Verification of the client-side real-time audio/text orchestration pipeline of
the interview-prep application: the text-chunk buffering/batching logic
(`processTextBuffer` in `frontend/app/(dashboard)/interview/[id]/page.tsx`),
the audio playback queue (`frontend/components/useAudioQueue.tsx`), the
speech-to-text session (`useSpeechToText` in `frontend/components/Hero.tsx`),
the text-to-speech conversion (`useTextToSpeech`), and the page-level
orchestration handlers.

JavaScript strings are modelled as `List Char` (`Str`), so that every
operation is structurally recursive and fully computable by the kernel.
The JavaScript runtime is single threaded: each event handler runs atomically up
to its next `await`; the machines below make each such synchronous segment one
transition.
-/

namespace InterviewPrep

/-- A JavaScript string, modelled as its sequence of characters. -/
abbrev Str := List Char

/-- Whitespace test used by the `\s` character class of the source regexes
and by `String.prototype.trim`. -/
def isWs (c : Char) : Bool := c.isWhitespace

/-- The whitespace-delimited non-empty words of `s`.  Embeds the source chain
`text.trim().split(/\s+/).filter(Boolean)` (page.tsx line 58): splitting
character-wise at each whitespace character and dropping empty tokens yields
exactly the maximal runs of non-whitespace characters, which is what the
regex split of the trimmed string produces. -/
def wordsOf (s : Str) : List Str := (s.splitOnP isWs).filter (fun w => !w.isEmpty)

/-- Embeds `countWords` (page.tsx lines 57-59):
`text.trim().split(/\s+/).filter(Boolean).length`. -/
def countWords (s : Str) : Nat := (wordsOf s).length

/-- Embeds `Array.prototype.join(' ')` on a list of strings. -/
def joinSp : List Str → Str
  | [] => []
  | [w] => w
  | w :: ws => w ++ ' ' :: joinSp ws

/-- Embeds `extractFirstNWords` (page.tsx lines 61-66):
`words = text.trim().split(/\s+/); batch = words.slice(0,n).join(' ');
remainder = words.slice(n).join(' ')`.  The source splits without filtering
empty tokens; the only input where the unfiltered split differs from
`wordsOf` is all-whitespace text, where the JS split yields a single empty
token whose slices join to the empty string on both components — exactly
what `wordsOf text = []` gives here, so the two definitions agree on every
input. -/
def extractFirstNWords (text : Str) (n : Nat) : Str × Str :=
  (joinSp ((wordsOf text).take n), joinSp ((wordsOf text).drop n))

/-- Embeds `String.prototype.trim`: drop leading and trailing whitespace. -/
def trimWs (s : Str) : Str := ((s.dropWhile isWs).reverse.dropWhile isWs).reverse

/-- Failure cases of the text-to-speech conversion (part_000, `textToAudioBuffer`,
lines 108-144). -/
inductive TTSError where
  | emptyText
  | httpError
  | decodeError
deriving DecidableEq, Repr

/-- Embeds `textToAudioBuffer` (part_000 lines 108-144).  The external fetch
and the audio decode are opaque: their success is an input (`httpOk`,
`decodeOk`).  The produced `AudioBuffer` is opaque, represented by `Unit`.
The function throws on empty/whitespace-only input text (`if (!text.trim())`),
on a non-ok response status, and on decode failure. -/
def textToAudioBuffer (text : Str) (httpOk decodeOk : Bool) : Except TTSError Unit :=
  if (trimWs text).isEmpty then .error .emptyText
  else if !httpOk then .error .httpError
  else if !decodeOk then .error .decodeError
  else .ok ()

/-! ### The text-chunk buffer (page.tsx lines 26-33, 57-118, 152-169)

`processTextBuffer` is an async function.  Its body is synchronous from entry
up to `await textToAudioBuffer(...)` (lines 68-98), and runs again
synchronously inside the `finally` block once the conversion settles
(lines 100-116).  `flushStep` embeds the synchronous entry segment;
`completeStep` embeds the settling of the in-flight conversion followed by
the `finally` block.  `inFlight` holds the batches currently awaiting the
external conversion (the source can have at most one; the model proves it). -/

/-- The mutable refs of the interview page that implement the text buffer:
`textBufferRef`, `isProcessingRef`, `pendingFlushRef`; plus the batches
currently awaiting conversion (`inFlight`) and the audio items successfully
enqueued so far (`emitted`, the `enqueue(audioBuffer, textToConvert)` calls). -/
structure BufState where
  buffer : Str
  isProcessing : Bool
  pendingFlush : Bool
  inFlight : List Str
  emitted : List Str
deriving DecidableEq, Repr

/-- The initial buffer state (all refs start empty/false). -/
def bufInit : BufState :=
  { buffer := [], isProcessing := false, pendingFlush := false, inFlight := [], emitted := [] }

/-- Embeds the synchronous entry segment of `processTextBuffer(forceFlush)`
(page.tsx lines 68-98): the early return that records a pending flush while a
conversion is in flight; the word-count gate; setting the lock before any
buffer mutation; choosing the batch (first 20 words when not forced, the
whole buffer when forced) and writing back the remainder; and starting the
conversion (modelled by appending the batch to `inFlight`). -/
def flushStep (force : Bool) (s : BufState) : BufState :=
  if s.isProcessing then
    if force then { s with pendingFlush := true } else s
  else
    let wc := countWords s.buffer
    if 20 ≤ wc ∨ (force ∧ 0 < wc) then
      let br := if !force ∧ 20 ≤ wc then extractFirstNWords s.buffer 20 else (s.buffer, [])
      { s with buffer := br.2, isProcessing := true, inFlight := s.inFlight ++ [br.1] }
    else s

/-- Embeds the settling of the in-flight conversion and the `finally` block of
`processTextBuffer` (page.tsx lines 98-116): on success the audio is enqueued
(`emitted`); the lock is released; then either the deferred forced flush or,
when twenty or more words accumulated meanwhile, a non-forced flush runs. -/
def completeStep (ok : Bool) (s : BufState) : BufState :=
  match s.inFlight with
  | [] => s
  | b :: rest =>
    let s1 : BufState :=
      { s with inFlight := rest, isProcessing := false,
               emitted := s.emitted ++ if ok then [b] else [] }
    if s1.pendingFlush then flushStep true { s1 with pendingFlush := false }
    else if 20 ≤ countWords s1.buffer then flushStep false s1
    else s1

/-- The externally triggered events of the buffer: a `text_chunk` socket
message (append the chunk, then `processTextBuffer(false)`, page.tsx
lines 152-160), a `text_complete` socket message (`processTextBuffer(true)`,
lines 163-169), and the settling (success or failure) of the in-flight
text-to-speech conversion. -/
inductive BufEvent where
  | append (chunk : Str)
  | textComplete
  | complete (ok : Bool)

/-- One atomic scheduler step of the buffer system. -/
def bstep : BufEvent → BufState → BufState
  | .append c, s => flushStep false { s with buffer := s.buffer ++ c }
  | .textComplete, s => flushStep true s
  | .complete ok, s => completeStep ok s

/-- The states reachable from `bufInit` under any interleaving of events. -/
inductive BufReach : BufState → Prop where
  | init : BufReach bufInit
  | step : ∀ {s} (e : BufEvent), BufReach s → BufReach (bstep e s)

/-- The big-step, sequential view of one `await processTextBuffer(force)` call
run to completion, used for the failure-propagation analysis: the source body
is `try ... finally ...` with no `catch`, so a rejected conversion makes the
call itself reject after the `finally` block has run.  `oracle` supplies the
success/failure of each conversion in order; `fuel` bounds the recursion
(lines 107 and 113).  Returns the final refs, the enqueued batches, the
unconsumed oracle, and whether the call rejected. -/
def processTextBuffer (fuel : Nat) (force : Bool) (s : BufState) (oracle : List Bool) :
    BufState × List Str × List Bool × Bool :=
  match fuel with
  | 0 => (s, [], oracle, false)
  | fuel + 1 =>
    if s.isProcessing then
      if force then ({ s with pendingFlush := true }, [], oracle, false)
      else (s, [], oracle, false)
    else
      let wc := countWords s.buffer
      if 20 ≤ wc ∨ (force ∧ 0 < wc) then
        let br := if !force ∧ 20 ≤ wc then extractFirstNWords s.buffer 20 else (s.buffer, [])
        let ok := oracle.headD true
        let s2 : BufState := { s with buffer := br.2, isProcessing := false }
        let r1 :=
          if s2.pendingFlush then
            processTextBuffer fuel true { s2 with pendingFlush := false } oracle.tail
          else if 20 ≤ countWords s2.buffer then
            processTextBuffer fuel false s2 oracle.tail
          else (s2, [], oracle.tail, false)
        (r1.1, (if ok then [br.1] else []) ++ r1.2.1, r1.2.2.1, (r1.2.2.2 || !ok))
      else (s, [], oracle, false)

/-! ### The audio playback queue (useAudioQueue.tsx)

The hook's state is the `queue` array, the `isPlaying` flag, the
`currentPlayingText` display string, and the `currentSourceRef` playback
handle.  The user-speaking boolean is the hook's input prop, written only by
the speech-to-text session.  React re-runs the two effects (auto-advance,
lines 110-114; interrupt, lines 117-128) after every state or prop change;
the machine below applies them to a fixpoint after each external event.
Completion callbacks (`source.onended`) are modelled as delivered only while
their source is still the active handle, matching the external interface
contract that a stopped-and-discarded source fires no completion.  The
first-audio notification ref is omitted: the interview page instantiates the
hook without an `onFirstAudioPlay` callback, so that ref never influences
the state modelled here. -/

/-- An `AudioQueueItem` (useAudioQueue.tsx lines 5-9): the decoded audio
payload is opaque, so an item is its creation-time identifier plus the text
batch that produced it. -/
structure QItem where
  id : Nat
  text : Str
deriving DecidableEq, Repr

/-- Where `playNext` (useAudioQueue.tsx lines 56-107) can fail, as seen from
its `catch` block: `ok` is the untroubled path; `failEarly` is a throw before
`currentSourceRef.current = source` is executed (creating/configuring the
source node); `failLate` is a throw after the handle assignment
(`source.start(0)` or a later statement throwing). -/
inductive PlayOutcome where
  | ok
  | failEarly
  | failLate
deriving DecidableEq, Repr

/-- The state of `useAudioQueue`: `queue`, `isPlaying`, `currentPlayingText`,
the active handle `currentSource` (`currentSourceRef`, holding the id of the
source node's item), and the `isUserSpeaking` input prop. -/
structure QState where
  queue : List QItem
  isPlaying : Bool
  currentPlayingText : Str
  currentSource : Option Nat
  isUserSpeaking : Bool
deriving DecidableEq, Repr

/-- The initial hook state. -/
def qInit : QState :=
  { queue := [], isPlaying := false, currentPlayingText := [],
    currentSource := none, isUserSpeaking := false }

/-- Embeds `playNext` (useAudioQueue.tsx lines 56-107): return if the user is
speaking, if the queue is empty, or if something is playing; otherwise
dequeue the head, set `isPlaying` and the display text, and attempt to start
the source.  On `ok` the handle is assigned and playback starts.  On a throw
the `catch` block (lines 102-106) resets `isPlaying` and the display text but
leaves `currentSourceRef` untouched, so `failLate` keeps the assigned handle. -/
def playNext (o : PlayOutcome) (s : QState) : QState :=
  if s.isUserSpeaking then s
  else
    match s.queue with
    | [] => s
    | item :: rest =>
      if s.isPlaying then s
      else
        match o with
        | .ok =>
          { s with queue := rest, isPlaying := true, currentPlayingText := item.text,
                   currentSource := some item.id }
        | .failEarly =>
          { s with queue := rest, isPlaying := false, currentPlayingText := [] }
        | .failLate =>
          { s with queue := rest, isPlaying := false, currentPlayingText := [],
                   currentSource := some item.id }

/-- Embeds the interrupt effect (useAudioQueue.tsx lines 117-128): when the
user starts speaking while playing, stop the active source, clear the handle,
and reset the playing state and display text.  The queue is untouched. -/
def interruptEffect (s : QState) : QState :=
  if s.isUserSpeaking ∧ s.isPlaying then
    { s with currentSource := none, isPlaying := false, currentPlayingText := [] }
  else s

/-- Embeds the auto-advance effect (useAudioQueue.tsx lines 110-114) re-run to
a fixpoint: while the queue is non-empty, nothing is playing and the user is
not speaking, call `playNext`.  Each call dequeues one item, so the queue
length bounds the iteration; `os` supplies the outcome of each attempt in
order (defaulting to the untroubled path). -/
def autoAdvance : Nat → List PlayOutcome → QState → QState
  | 0, _, s => s
  | fuel + 1, os, s =>
    if s.queue ≠ [] ∧ s.isPlaying = false ∧ s.isUserSpeaking = false then
      autoAdvance fuel os.tail (playNext (os.headD .ok) s)
    else s

/-- Run the hook's effects after a state or prop change: the interrupt effect,
then the auto-advance effect to a fixpoint.  (For any fixed value of the
speaking prop at most one of the two effects is enabled, so this ordering is
equivalent to React re-running both in declaration order.) -/
def runEffects (os : List PlayOutcome) (s : QState) : QState :=
  autoAdvance (interruptEffect s).queue.length os (interruptEffect s)

/-- The externally triggered events of the queue: `enqueue` (lines 46-49), a
change of the user-speaking prop, the natural completion of the active source
(the `source.onended` handler, lines 89-93), and `clearQueue`
(lines 131-141).  Events that can start playback carry the outcome oracle for
the `playNext` attempts they trigger. -/
inductive QEvent where
  | enqueue (item : QItem) (os : List PlayOutcome)
  | setSpeaking (b : Bool) (os : List PlayOutcome)
  | ended (os : List PlayOutcome)
  | clearQueue

/-- One atomic scheduler step of the playback queue. -/
def qstep : QEvent → QState → QState
  | .enqueue item os, s => runEffects os { s with queue := s.queue ++ [item] }
  | .setSpeaking b os, s => runEffects os { s with isUserSpeaking := b }
  | .ended os, s =>
    match s.currentSource with
    | some _ =>
      runEffects os { s with isPlaying := false, currentPlayingText := [], currentSource := none }
    | none => s
  | .clearQueue, s =>
    { s with queue := [], isPlaying := false, currentPlayingText := [], currentSource := none }

/-- The queue states reachable from `qInit` under events allowed by `allow`. -/
inductive QReach (allow : QEvent → Prop) : QState → Prop where
  | init : QReach allow qInit
  | step : ∀ {s} (e : QEvent), QReach allow s → allow e → QReach allow (qstep e s)

/-- The queue states reachable from a given state under events allowed by
`allow`. -/
inductive QReachFrom (allow : QEvent → Prop) (s0 : QState) : QState → Prop where
  | refl : QReachFrom allow s0 s0
  | step : ∀ {s} (e : QEvent), QReachFrom allow s0 s → allow e → QReachFrom allow s0 (qstep e s)

/-- Event filter: every playback-start failure, if any, happens before the
handle assignment (no `failLate` outcome is scheduled). -/
def noFailLate : QEvent → Prop
  | .enqueue _ os => PlayOutcome.failLate ∉ os
  | .setSpeaking _ os => PlayOutcome.failLate ∉ os
  | .ended os => PlayOutcome.failLate ∉ os
  | .clearQueue => True

/-- Event filter: no enqueued item carries the identifier `i` (item ids are
creation-time based and collision-negligible per the data model). -/
def avoidsId (i : Nat) : QEvent → Prop
  | .enqueue item _ => item.id ≠ i
  | _ => True

/-! ### The speech-to-text session (Hero.tsx, `useSpeechToText`) -/

/-- The derived state of `useSpeechToText` (Hero.tsx lines 51-72):
the interim transcript, the finalized transcripts, the transcribing flag, the
speaking flag, and the fast-path end-of-utterance guard
(`speechFinalReceivedRef`). -/
structure STTState where
  currentTranscript : Str
  finalizedTranscripts : List Str
  isTranscribing : Bool
  isSpeaking : Bool
  speechFinalReceived : Bool
deriving DecidableEq, Repr

/-- The state updates of `stopTranscription` (Hero.tsx lines 204-225): reset
the speaking flag, the fast-path guard, the transcribing flag, and the
interim transcript.  `finalizedTranscripts` is not touched by the source. -/
def sttReset (s : STTState) : STTState :=
  { s with isSpeaking := false, speechFinalReceived := false,
           isTranscribing := false, currentTranscript := [] }

/-- Embeds `stopTranscription` (Hero.tsx lines 204-225).  Each of the three
resource releases (`mediaRecorder.stop()`, stopping the stream tracks,
`socket.close()`) is wrapped in its own `try ... catch ... ` that swallows any
error, so the function returns normally whichever releases fail; the `failX`
inputs say which external releases would throw.  A thrown error escaping the
function would be an `Except.error` value. -/
def stopTranscription (failRecorder failStream failSocket : Bool) (s : STTState) :
    Except String STTState :=
  let rRec : Except String Unit := if failRecorder then .error "recorder stop" else .ok ()
  let rStr : Except String Unit := if failStream then .error "track stop" else .ok ()
  let rSock : Except String Unit := if failSocket then .error "socket close" else .ok ()
  match rRec, rStr, rSock with
  | _, _, _ => .ok (sttReset s)

/-! ### The interview page orchestration (page.tsx lines 120-264) -/

/-- The page-level state relevant to the orchestration handlers: the call
flag, `lastTranscriptRef`, the text-buffer refs, the speech-to-text state,
the playback-queue state, whether the socket is connected, the
`user_response` payloads emitted so far, and whether the delayed redirect to
the dashboard has run. -/
structure PageState where
  callActive : Bool
  lastTranscript : Str
  textBuffer : Str
  isProcessing : Bool
  pendingFlush : Bool
  stt : STTState
  audio : QState
  socketConnected : Bool
  sentResponses : List Str
  redirected : Bool
deriving DecidableEq, Repr

/-- Embeds the transcript-send effect (page.tsx lines 216-235): when the user
is not speaking, finalized transcripts exist and the socket is connected,
join them with single spaces, clear them, and — only when the combined text
is non-empty and differs from the last transmission — clear the text-buffer
refs and emit `user_response`, recording it in `lastTranscriptRef`. -/
def sendTranscriptEffect (s : PageState) : PageState :=
  if s.stt.isSpeaking = false ∧ s.stt.finalizedTranscripts ≠ [] ∧ s.socketConnected then
    let combined := joinSp s.stt.finalizedTranscripts
    let s1 := { s with stt := { s.stt with finalizedTranscripts := [] } }
    if combined ≠ [] ∧ combined ≠ s.lastTranscript then
      { s1 with textBuffer := [], isProcessing := false, pendingFlush := false,
                sentResponses := s1.sentResponses ++ [combined],
                lastTranscript := combined }
    else s1
  else s

/-- Embeds `startCall` (page.tsx lines 237-252): start transcription when not
already transcribing, activate the call, and clear the three text-buffer
refs.  (`start_interview` is emitted to the server; it carries no state
modelled here.) -/
def startCall (s : PageState) : PageState :=
  let stt1 := if s.stt.isTranscribing then s.stt else { s.stt with isTranscribing := true }
  { s with stt := stt1, callActive := true,
           textBuffer := [], isProcessing := false, pendingFlush := false }

/-- Embeds `stopCall` (page.tsx lines 254-264): stop transcription when
transcribing, deactivate the call, clear the playback queue, and clear the
three text-buffer refs. -/
def stopCall (s : PageState) : PageState :=
  let stt1 := if s.stt.isTranscribing then sttReset s.stt else s.stt
  { s with stt := stt1, callActive := false, audio := qstep .clearQueue s.audio,
           textBuffer := [], isProcessing := false, pendingFlush := false }

/-- The transcribing flag read by the `interview_completed` handler's guard
`if (isTranscribing)` (page.tsx line 178).  The handler is registered inside
the socket `useEffect` whose dependency array is `[interviewId]`
(line 213), so its closure captures the `useState` value `isTranscribing`
from the render at which that effect ran — the mount render, where it is
still `false` (transcription starts only later, via the Start button, and
the effect never re-runs).  The guard is therefore dead in every execution. -/
def capturedIsTranscribing : Bool := false

/-- Embeds the synchronous body of the `interview_completed` handler
(page.tsx lines 172-193).  Its `if (isTranscribing) toggleTranscription()`
reads the closure-captured `capturedIsTranscribing` (always `false`), so the
transcription state is left untouched; the handler then deactivates the
call, clears the playback queue, and disconnects the socket — all before it
returns.  The only action scheduled for later is the redirect. -/
def interviewCompletedImmediate (s : PageState) : PageState :=
  let stt1 := if capturedIsTranscribing then sttReset s.stt else s.stt
  { s with stt := stt1, callActive := false, audio := qstep .clearQueue s.audio,
           socketConnected := false }

/-- Embeds the delayed part of the `interview_completed` handler: the
`setTimeout(..., 2000)` callback performing `router.push` to the dashboard. -/
def interviewCompletedDelayed (s : PageState) : PageState :=
  { s with redirected := true }

/-- Mutual-exclusion invariant of the buffer: at most one conversion is in
flight, and only while the lock is held. -/
def Mutex (s : BufState) : Prop :=
  s.inFlight.length ≤ 1 ∧ (s.inFlight = [] ∨ s.isProcessing = true)

/-- Safety invariant of the buffer: no in-flight batch is empty or
whitespace-only. -/
def BatchesOk (s : BufState) : Prop :=
  ∀ b ∈ s.inFlight, (trimWs b).isEmpty = false

/-- Invariant for the interrupt claim: the identifier `i` is neither the
active handle nor queued. -/
def NotActive (i : Nat) (s : QState) : Prop :=
  s.currentSource ≠ some i ∧ i ∉ s.queue.map QItem.id

/-- One direction of the playback-handle invariant: whenever the queue is
playing, the active handle is non-null. -/
def HandleInv (s : QState) : Prop :=
  s.isPlaying = true → s.currentSource.isSome = true

/-- The full playback-handle invariant: the queue is playing exactly when the
active handle is non-null. -/
def HandleIff (s : QState) : Prop :=
  s.isPlaying = true ↔ s.currentSource.isSome = true

/-! ### Word-splitting facts -/

/-- Every token produced by `splitOnP` contains no character satisfying the
splitting predicate. -/
theorem splitOnP_pieces_no_sep {α : Type} (p : α → Bool) (xs : List α) :
    ∀ w ∈ xs.splitOnP p, ∀ c ∈ w, p c = false := by
  induction xs with
  | nil => simp [List.splitOnP_nil]
  | cons x xs ih =>
    intro w hw c hc
    rw [List.splitOnP_cons] at hw
    by_cases hx : p x
    · rw [if_pos hx] at hw
      rw [List.mem_cons] at hw
      rcases hw with hw | hw
      · subst hw; simp at hc
      · exact ih w hw c hc
    · rw [if_neg hx] at hw
      obtain ⟨h, t, hsplit⟩ := List.exists_cons_of_ne_nil (List.splitOnP_ne_nil p xs)
      rw [hsplit] at hw
      simp only [List.modifyHead] at hw
      rw [List.mem_cons] at hw
      rcases hw with hw | hw
      · subst hw
        rw [List.mem_cons] at hc
        rcases hc with hc | hc
        · simpa [hc] using hx
        · exact ih h (by rw [hsplit]; exact List.mem_cons_self _ _) c hc
      · exact ih w (by rw [hsplit]; exact List.mem_cons.mpr (Or.inr hw)) c hc

/-- Every character of every token produced by `splitOnP` is a character of
the original list. -/
theorem splitOnP_pieces_subset {α : Type} (p : α → Bool) (xs : List α) :
    ∀ w ∈ xs.splitOnP p, ∀ c ∈ w, c ∈ xs := by
  induction xs with
  | nil => simp [List.splitOnP_nil]
  | cons x xs ih =>
    intro w hw c hc
    rw [List.splitOnP_cons] at hw
    by_cases hx : p x
    · rw [if_pos hx] at hw
      rw [List.mem_cons] at hw
      rcases hw with hw | hw
      · subst hw; simp at hc
      · exact List.mem_cons_of_mem x (ih w hw c hc)
    · rw [if_neg hx] at hw
      obtain ⟨h, t, hsplit⟩ := List.exists_cons_of_ne_nil (List.splitOnP_ne_nil p xs)
      rw [hsplit] at hw
      simp only [List.modifyHead] at hw
      rw [List.mem_cons] at hw
      rcases hw with hw | hw
      · subst hw
        rw [List.mem_cons] at hc
        rcases hc with hc | hc
        · simp [hc]
        · exact List.mem_cons_of_mem x
            (ih h (by rw [hsplit]; exact List.mem_cons_self _ _) c hc)
      · exact List.mem_cons_of_mem x
          (ih w (by rw [hsplit]; exact List.mem_cons.mpr (Or.inr hw)) c hc)

/-- Every word of `wordsOf s` is non-empty and free of whitespace. -/
theorem wordsOf_sound (s : Str) :
    ∀ w ∈ wordsOf s, w ≠ [] ∧ ∀ c ∈ w, isWs c = false := by
  intro w hw
  unfold wordsOf at hw
  rw [List.mem_filter] at hw
  refine ⟨by simpa using hw.2, fun c hc => splitOnP_pieces_no_sep isWs s w hw.1 c hc⟩

/-- If a list contains an element violating `p`, so does its `dropWhile p`. -/
theorem dropWhile_keeps_violation {α : Type} (p : α → Bool) (l : List α)
    (h : ∃ c ∈ l, p c = false) : ∃ c ∈ l.dropWhile p, p c = false := by
  induction l with
  | nil => simp at h
  | cons x xs ih =>
    by_cases hx : p x
    · rw [List.dropWhile_cons_of_pos hx]
      apply ih
      obtain ⟨c, hc, hcp⟩ := h
      rw [List.mem_cons] at hc
      rcases hc with hc | hc
      · subst hc; simp [hx] at hcp
      · exact ⟨c, hc, hcp⟩
    · rw [List.dropWhile_cons_of_neg hx]
      exact ⟨x, List.mem_cons_self _ _, by simpa using hx⟩

/-- A string containing a non-whitespace character does not trim to empty. -/
theorem trimWs_ne_empty_of_mem (s : Str) (c : Char) (hc : c ∈ s)
    (hcw : isWs c = false) : (trimWs s).isEmpty = false := by
  unfold trimWs
  have h1 : ∃ d ∈ s.dropWhile isWs, isWs d = false :=
    dropWhile_keeps_violation isWs s ⟨c, hc, hcw⟩
  have h2 : ∃ d ∈ (s.dropWhile isWs).reverse.dropWhile isWs, isWs d = false := by
    apply dropWhile_keeps_violation
    obtain ⟨d, hd, hdw⟩ := h1
    exact ⟨d, List.mem_reverse.mpr hd, hdw⟩
  obtain ⟨d, hd, _⟩ := h2
  rcases h : ((s.dropWhile isWs).reverse.dropWhile isWs).reverse with _ | _
  · rw [List.reverse_eq_nil_iff] at h
    rw [h] at hd
    simp at hd
  · rfl

/-- The join of a list of words whose first word contains a non-whitespace
character also contains it. -/
theorem mem_joinSp_of_mem_head (w : Str) (ws : List Str) (c : Char) (hc : c ∈ w) :
    c ∈ joinSp (w :: ws) := by
  cases ws with
  | nil => simpa [joinSp] using hc
  | cons v vs => simp [joinSp, hc]

/-- A non-empty batch of words never joins to whitespace-only text: if the
word list is non-empty and its words are non-empty and whitespace-free, the
join has a non-empty trim. -/
theorem trimWs_joinSp_ne_empty (ws : List Str) (hne : ws ≠ [])
    (h : ∀ w ∈ ws, w ≠ [] ∧ ∀ c ∈ w, isWs c = false) :
    (trimWs (joinSp ws)).isEmpty = false := by
  obtain ⟨w, t, rfl⟩ := List.exists_cons_of_ne_nil hne
  obtain ⟨hw, hwc⟩ := h w (List.mem_cons_self _ _)
  obtain ⟨c, cs, rfl⟩ := List.exists_cons_of_ne_nil hw
  exact trimWs_ne_empty_of_mem _ c (mem_joinSp_of_mem_head _ t c (List.mem_cons_self _ _))
    (hwc c (List.mem_cons_self _ _))

/-- Positive word count means the text itself does not trim to empty. -/
theorem trimWs_ne_empty_of_countWords_pos (s : Str) (h : 0 < countWords s) :
    (trimWs s).isEmpty = false := by
  unfold countWords at h
  obtain ⟨w, t, hsplit⟩ := List.exists_cons_of_ne_nil (List.length_pos.mp h)
  have hw := wordsOf_sound s w (by rw [hsplit]; exact List.mem_cons_self _ _)
  obtain ⟨c, cs, rfl⟩ := List.exists_cons_of_ne_nil hw.1
  have hcs : c ∈ s := by
    have hmem : (c :: cs) ∈ wordsOf s := by rw [hsplit]; exact List.mem_cons_self _ _
    unfold wordsOf at hmem
    rw [List.mem_filter] at hmem
    exact splitOnP_pieces_subset isWs s _ hmem.1 c (List.mem_cons_self _ _)
  exact trimWs_ne_empty_of_mem s c hcs (hw.2 c (List.mem_cons_self _ _))

/-! ### Buffer invariants -/

/-- The synchronous flush segment preserves the mutual-exclusion invariant. -/
theorem flushStep_Mutex (force : Bool) (s : BufState) (h : Mutex s) :
    Mutex (flushStep force s) := by
  obtain ⟨h1, h2⟩ := h
  unfold flushStep
  by_cases hp : s.isProcessing = true
  · simp only [hp, if_true]
    by_cases hf : force = true <;> simp [hf, Mutex, h1, h2]
  · have hp' : s.isProcessing = false := by simpa using hp
    have hfl : s.inFlight = [] := by
      rcases h2 with h2 | h2
      · exact h2
      · rw [h2] at hp'; cases hp'
    simp only [hp', Bool.false_eq_true, if_false]
    by_cases hc : 20 ≤ countWords s.buffer ∨ (force = true ∧ 0 < countWords s.buffer)
    · rw [if_pos (by simpa using hc)]
      simp [Mutex, hfl]
    · rw [if_neg (by simpa using hc)]
      exact ⟨h1, Or.inl hfl⟩

/-- Conversion settlement preserves the mutual-exclusion invariant. -/
theorem completeStep_Mutex (ok : Bool) (s : BufState) (h : Mutex s) :
    Mutex (completeStep ok s) := by
  obtain ⟨h1, h2⟩ := h
  unfold completeStep
  cases hfl : s.inFlight with
  | nil => exact ⟨h1, h2⟩
  | cons b rest =>
    have hrest : rest = [] := by
      rw [hfl] at h1
      simpa using h1
    subst hrest
    by_cases hpf : s.pendingFlush = true
    · simp only [hpf, if_true]
      exact flushStep_Mutex true _ ⟨by simp, Or.inl rfl⟩
    · have hpf' : s.pendingFlush = false := by simpa using hpf
      simp only [hpf', Bool.false_eq_true, if_false]
      by_cases hc : 20 ≤ countWords s.buffer
      · rw [if_pos hc]
        exact flushStep_Mutex false _ ⟨by simp, Or.inl rfl⟩
      · rw [if_neg hc]
        exact ⟨by simp, Or.inl rfl⟩

/-- Every reachable buffer state satisfies the mutual-exclusion invariant. -/
theorem bufReach_Mutex (s : BufState) (h : BufReach s) : Mutex s := by
  induction h with
  | init => exact ⟨by simp [bufInit], Or.inl rfl⟩
  | step e _ ih =>
    cases e with
    | append c => exact flushStep_Mutex false _ ⟨ih.1, ih.2⟩
    | textComplete => exact flushStep_Mutex true _ ih
    | complete ok => exact completeStep_Mutex ok _ ih

/-- The synchronous flush segment only starts conversions of batches that do
not trim to empty. -/
theorem flushStep_BatchesOk (force : Bool) (s : BufState) (h : BatchesOk s) :
    BatchesOk (flushStep force s) := by
  unfold flushStep
  by_cases hp : s.isProcessing = true
  · simp only [hp, if_true]
    by_cases hf : force = true <;> simp_all [BatchesOk]
  · have hp' : s.isProcessing = false := by simpa using hp
    simp only [hp', Bool.false_eq_true, if_false]
    by_cases hc : 20 ≤ countWords s.buffer ∨ (force = true ∧ 0 < countWords s.buffer)
    · rw [if_pos (by simpa using hc)]
      intro b hb
      simp only [List.mem_append, List.mem_singleton] at hb
      rcases hb with hb | hb
      · exact h b hb
      · subst hb
        by_cases hbr : ((!force) = true ∧ 20 ≤ countWords s.buffer)
        · rw [if_pos (by simpa using hbr)]
          apply trimWs_joinSp_ne_empty
          · have hlen : ((wordsOf s.buffer).take 20).length = 20 := by
              rw [List.length_take]
              exact Nat.min_eq_left hbr.2
            intro hnil
            rw [hnil] at hlen
            simp at hlen
          · intro w hw
            exact wordsOf_sound s.buffer w (List.mem_of_mem_take hw)
        · rw [if_neg (by simpa using hbr)]
          apply trimWs_ne_empty_of_countWords_pos
          rcases hc with hc | hc
          · exact Nat.lt_of_lt_of_le (by norm_num) hc
          · exact hc.2
    · rw [if_neg (by simpa using hc)]
      exact h

/-- Conversion settlement only starts conversions of batches that do not trim
to empty. -/
theorem completeStep_BatchesOk (ok : Bool) (s : BufState) (h : BatchesOk s) :
    BatchesOk (completeStep ok s) := by
  unfold completeStep
  cases hfl : s.inFlight with
  | nil => exact h
  | cons b rest =>
    have h1 : ∀ b1 ∈ rest, (trimWs b1).isEmpty = false :=
      fun b1 hb1 => h b1 (by rw [hfl]; exact List.mem_cons_of_mem _ hb1)
    by_cases hpf : s.pendingFlush = true
    · simp only [hpf, if_true]
      exact flushStep_BatchesOk true _ h1
    · have hpf' : s.pendingFlush = false := by simpa using hpf
      simp only [hpf', Bool.false_eq_true, if_false]
      by_cases hc : 20 ≤ countWords s.buffer
      · rw [if_pos hc]
        exact flushStep_BatchesOk false _ h1
      · rw [if_neg hc]
        exact h1

/-- Every reachable buffer state has only non-whitespace batches in flight. -/
theorem bufReach_BatchesOk (s : BufState) (h : BufReach s) : BatchesOk s := by
  induction h with
  | init => intro b hb; simp [bufInit] at hb
  | step e _ ih =>
    cases e with
    | append c => exact flushStep_BatchesOk false _ (fun b hb => ih b hb)
    | textComplete => exact flushStep_BatchesOk true _ ih
    | complete ok => exact completeStep_BatchesOk ok _ ih

/-! ### Claims C1-C4 and C9: the text-chunk buffer -/

/-- C1: when no conversion is in flight, a non-forced flush with at least 20
buffered words converts exactly the first 20 words joined with single spaces
as the batch and writes back the remaining words re-joined with single spaces
as the new `pendingText`; a forced flush with positive word count converts
the entire `pendingText` as one batch and leaves the buffer empty. -/
theorem processTextBuffer_batching (s : BufState) (hp : s.isProcessing = false) :
    (20 ≤ countWords s.buffer →
      flushStep false s =
        { s with buffer := joinSp ((wordsOf s.buffer).drop 20),
                 isProcessing := true,
                 inFlight := s.inFlight ++ [joinSp ((wordsOf s.buffer).take 20)] }) ∧
    (0 < countWords s.buffer →
      flushStep true s =
        { s with buffer := [], isProcessing := true,
                 inFlight := s.inFlight ++ [s.buffer] }) := by
  constructor
  · intro h20
    simp [flushStep, extractFirstNWords, hp, h20]
  · intro h0
    simp [flushStep, hp, h0]

/-- Witness for C1: scenario B (25 words, non-forced: first 20 become the
batch, the last 5 are retained) and scenario C (5 words, forced: all 5 words
become the batch, the buffer empties). -/
theorem processTextBuffer_batching_witness :
    20 ≤ countWords ("one two three four five six seven eight nine ten eleven twelve thirteen fourteen fifteen sixteen seventeen eighteen nineteen twenty alpha beta gamma delta epsilon").toList ∧
    flushStep false
        ⟨("one two three four five six seven eight nine ten eleven twelve thirteen fourteen fifteen sixteen seventeen eighteen nineteen twenty alpha beta gamma delta epsilon").toList,
         false, false, [], []⟩ =
      ⟨("alpha beta gamma delta epsilon").toList, true, false,
       [("one two three four five six seven eight nine ten eleven twelve thirteen fourteen fifteen sixteen seventeen eighteen nineteen twenty").toList], []⟩ ∧
    flushStep true ⟨("all five words go out").toList, false, false, [], []⟩ =
      ⟨[], true, false, [("all five words go out").toList], []⟩ := by
  refine ⟨by decide, ?_, ?_⟩
  · rw [(processTextBuffer_batching _ rfl).1 (by decide)]
    decide
  · rw [(processTextBuffer_batching _ rfl).2 (by decide)]
    decide

/-- C2: in every reachable buffer state at most one conversion is in flight,
and a conversion is in flight only while the `isProcessing` lock is held;
moreover any flush invocation that mutates the buffer or starts a conversion
does so only from an unlocked state and holds the lock afterwards. -/
theorem conversion_mutual_exclusion :
    (∀ s, BufReach s → s.inFlight.length ≤ 1 ∧ (s.inFlight = [] ∨ s.isProcessing = true)) ∧
    (∀ (force : Bool) (s : BufState),
        (flushStep force s).buffer ≠ s.buffer ∨ (flushStep force s).inFlight ≠ s.inFlight →
        s.isProcessing = false ∧ (flushStep force s).isProcessing = true) := by
  constructor
  · exact fun s h => bufReach_Mutex s h
  · intro force s hchg
    by_cases hp : s.isProcessing = true
    · exfalso
      unfold flushStep at hchg
      by_cases hf : force = true <;> simp [hp, hf] at hchg
    · have hp' : s.isProcessing = false := by simpa using hp
      refine ⟨hp', ?_⟩
      unfold flushStep at hchg ⊢
      simp only [hp', Bool.false_eq_true, if_false] at hchg ⊢
      by_cases hc : 20 ≤ countWords s.buffer ∨ (force = true ∧ 0 < countWords s.buffer)
      · rw [if_pos (by simpa using hc)]
      · rw [if_neg (by simpa using hc)] at hchg
        simp at hchg

/-- Witness for C2: the invariant at a concretely reached state, and the
lock transition at a concrete 20-word buffer whose flush mutates it. -/
theorem conversion_mutual_exclusion_witness :
    (bufInit.inFlight.length ≤ 1 ∧ (bufInit.inFlight = [] ∨ bufInit.isProcessing = true)) ∧
    ((⟨("a b c d e f g h i j k l m n o p q r s t").toList, false, false, [], []⟩ :
        BufState).isProcessing = false ∧
      (flushStep false
        ⟨("a b c d e f g h i j k l m n o p q r s t").toList,
         false, false, [], []⟩).isProcessing = true) :=
  ⟨conversion_mutual_exclusion.1 bufInit BufReach.init,
   conversion_mutual_exclusion.2 false _ (Or.inl (by decide))⟩

/-- C3: a forced flush arriving while a conversion is in flight returns
immediately having only recorded `pendingFlush` (no buffer text is touched),
and when the in-flight conversion settles the recorded forced flush is
performed: a non-empty buffer is converted whole as a new in-flight batch,
an empty one makes the deferred flush a no-op — in either case the pending
flag is consumed and no buffered text is discarded. -/
theorem forced_flush_deferred_not_dropped (s : BufState) :
    (s.isProcessing = true → flushStep true s = { s with pendingFlush := true }) ∧
    (∀ (ok : Bool) (b : Str), s.inFlight = [b] → s.pendingFlush = true →
      (0 < countWords s.buffer →
        completeStep ok s =
          { s with buffer := [], isProcessing := true, pendingFlush := false,
                   inFlight := [s.buffer],
                   emitted := s.emitted ++ if ok then [b] else [] }) ∧
      (countWords s.buffer = 0 →
        completeStep ok s =
          { s with isProcessing := false, pendingFlush := false, inFlight := [],
                   emitted := s.emitted ++ if ok then [b] else [] })) := by
  constructor
  · intro hp
    simp [flushStep, hp]
  · intro ok b hfl hpf
    constructor
    · intro h0
      unfold completeStep
      rw [hfl]
      simp [flushStep, hpf, h0]
    · intro h0
      unfold completeStep
      rw [hfl]
      simp [flushStep, hpf, h0]

/-- Witness for C3: a forced flush during a concrete in-flight conversion is
recorded, and its settlement converts the five buffered words whole. -/
theorem forced_flush_deferred_not_dropped_witness :
    flushStep true ⟨("later words").toList, true, false, [("first batch").toList], []⟩ =
      ⟨("later words").toList, true, true, [("first batch").toList], []⟩ ∧
    completeStep true ⟨("later words").toList, true, true, [("first batch").toList], []⟩ =
      ⟨[], true, false, [("later words").toList], [("first batch").toList]⟩ := by
  constructor
  · rw [(forced_flush_deferred_not_dropped _).1 rfl]
  · rw [((forced_flush_deferred_not_dropped _).2 true (("first batch").toList) rfl rfl).1
      (by decide)]
    decide

/-- C4 counterexample: `processTextBuffer` has a `try ... finally ... ` with no
`catch`, so a failing synthesis is not caught inside the flush routine: at a
concrete five-word forced flush whose conversion fails, the call itself
rejects (the failure propagates to the caller instead of being caught and
logged in the routine). -/
theorem synthesis_failure_not_caught :
    (processTextBuffer 3 true ⟨("a b c d e").toList, false, false, [], []⟩ [false]).2.2.2
      = true := by decide

/-- C4 amended: a synthesis failure does not halt the buffer — the refs
evolve exactly as on success (the `finally` block clears the lock and keeps
batching whatever text is left), the failed batch is simply not enqueued and
never retried, and the rejection propagates to the caller. -/
theorem synthesis_failure_resilient :
    (∀ (fuel : Nat) (force : Bool) (s : BufState) (o o' : List Bool),
        (processTextBuffer fuel force s o).1 = (processTextBuffer fuel force s o').1) ∧
    (∀ (fuel : Nat) (force : Bool) (s : BufState) (o : List Bool),
        s.isProcessing = false → (processTextBuffer fuel force s o).1.isProcessing = false) ∧
    (∀ (fuel : Nat) (force : Bool) (s : BufState) (rest : List Bool),
        s.isProcessing = false →
        (20 ≤ countWords s.buffer ∨ (force = true ∧ 0 < countWords s.buffer)) →
        (processTextBuffer (fuel + 1) force s (false :: rest)).2.2.2 = true ∧
        ∃ b, (processTextBuffer (fuel + 1) force s (true :: rest)).2.1 =
              b :: (processTextBuffer (fuel + 1) force s (false :: rest)).2.1) := by
  refine ⟨?_, ?_, ?_⟩
  · intro fuel
    induction fuel with
    | zero => intro force s o o'; rfl
    | succ n ih =>
      intro force s o o'
      simp only [processTextBuffer]
      split_ifs <;> first | rfl | apply ih
  · intro fuel
    induction fuel with
    | zero => intro force s o hp; exact hp
    | succ n ih =>
      intro force s o hp
      simp only [processTextBuffer]
      split_ifs <;> first | exact hp | rfl | exact ih _ _ _ rfl
  · intro fuel force s rest hp hc
    constructor
    · simp only [processTextBuffer]
      simp only [hp, Bool.false_eq_true, if_false]
      rw [if_pos hc]
      simp
    · refine ⟨(if force = false ∧ 20 ≤ countWords s.buffer
          then extractFirstNWords s.buffer 20 else (s.buffer, [])).1, ?_⟩
      simp only [processTextBuffer]
      simp only [hp, Bool.false_eq_true, if_false]
      rw [if_pos hc, if_pos hc]
      simp

/-- Witness for C4 amended: a concrete 25-word non-forced flush whose first
conversion fails still batches the remaining words, and emits exactly one
batch fewer than the all-success run. -/
theorem synthesis_failure_resilient_witness :
    (processTextBuffer 3 false
        ⟨("one two three four five six seven eight nine ten eleven twelve thirteen fourteen fifteen sixteen seventeen eighteen nineteen twenty alpha beta gamma delta epsilon").toList,
         false, false, [], []⟩ ([false])).2.2.2 = true ∧
    ∃ b, (processTextBuffer 3 false
        ⟨("one two three four five six seven eight nine ten eleven twelve thirteen fourteen fifteen sixteen seventeen eighteen nineteen twenty alpha beta gamma delta epsilon").toList,
         false, false, [], []⟩ ([true])).2.1 =
      b :: (processTextBuffer 3 false
        ⟨("one two three four five six seven eight nine ten eleven twelve thirteen fourteen fifteen sixteen seventeen eighteen nineteen twenty alpha beta gamma delta epsilon").toList,
         false, false, [], []⟩ ([false])).2.1 :=
  synthesis_failure_resilient.2.2 2 false _ [] rfl (Or.inl (by decide))

/-- C9 counterexample: in the concretely reached state where a 20-word chunk
was appended (its conversion is in flight and the written-back remainder is
empty, hence zero words), a forced `processTextBuffer` call does change the
pending-flush flag, contradicting the claim that with a whitespace-only
buffer all three refs are left unchanged. -/
theorem whitespace_forced_flush_sets_pending :
    BufReach (bstep (.append ("a b c d e f g h i j k l m n o p q r s t").toList) bufInit) ∧
    countWords
        (bstep (.append ("a b c d e f g h i j k l m n o p q r s t").toList) bufInit).buffer
      = 0 ∧
    (bstep (.append ("a b c d e f g h i j k l m n o p q r s t").toList)
        bufInit).pendingFlush = false ∧
    (bstep .textComplete
        (bstep (.append ("a b c d e f g h i j k l m n o p q r s t").toList)
          bufInit)).pendingFlush = true :=
  ⟨BufReach.step _ BufReach.init, by decide, by decide, by decide⟩

/-- C9 amended: when no conversion is in flight, a flush over a zero-word
buffer — forced or not — is a complete no-op (no synthesis, no ref changes);
a forced call during an in-flight conversion still records the pending-flush
flag regardless of buffer content; and in every reachable state no in-flight
batch can make the synthesizer take its empty-text error branch. -/
theorem empty_text_error_unreachable :
    (∀ (s : BufState) (force : Bool), s.isProcessing = false → countWords s.buffer = 0 →
        flushStep force s = s) ∧
    (∀ s, BufReach s → ∀ b ∈ s.inFlight, ∀ (httpOk decodeOk : Bool),
        textToAudioBuffer b httpOk decodeOk ≠ Except.error TTSError.emptyText) := by
  constructor
  · intro s force hp h0
    simp [flushStep, hp, h0]
  · intro s hs b hb httpOk decodeOk
    have hbok := bufReach_BatchesOk s hs b hb
    unfold textToAudioBuffer
    rw [if_neg (by simp [hbok])]
    by_cases hh : httpOk = true <;> by_cases hd : decodeOk = true <;> simp [hh, hd]

/-- Witness for C9 amended: a whitespace-only buffer makes a forced flush a
no-op, and the batch put in flight by a concrete 20-word append converts
without hitting the empty-text error. -/
theorem empty_text_error_unreachable_witness :
    flushStep true ⟨(" ").toList, false, false, [], []⟩ =
      ⟨(" ").toList, false, false, [], []⟩ ∧
    textToAudioBuffer (("a b c d e f g h i j k l m n o p q r s t").toList) true true ≠
      Except.error TTSError.emptyText :=
  ⟨empty_text_error_unreachable.1 _ true rfl (by decide),
   empty_text_error_unreachable.2
     (bstep (.append ("a b c d e f g h i j k l m n o p q r s t").toList) bufInit)
     (BufReach.step _ BufReach.init) _ (by decide) true true⟩

/-! ### Playback-queue invariants -/

/-- The auto-advance loop does nothing when its guard fails. -/
theorem autoAdvance_stuck (fuel : Nat) (os : List PlayOutcome) (s : QState)
    (h : ¬(s.queue ≠ [] ∧ s.isPlaying = false ∧ s.isUserSpeaking = false)) :
    autoAdvance fuel os s = s := by
  cases fuel with
  | zero => rfl
  | succ n => simp only [autoAdvance, if_neg h]

/-- `playNext` keeps the handle non-null whenever the queue is playing. -/
theorem playNext_HandleInv (o : PlayOutcome) (s : QState) (h : HandleInv s) :
    HandleInv (playNext o s) := by
  unfold playNext
  by_cases hsp : s.isUserSpeaking = true
  · simpa [hsp] using h
  · have hsp' : s.isUserSpeaking = false := by simpa using hsp
    simp only [hsp', Bool.false_eq_true, if_false]
    cases hq : s.queue with
    | nil => exact h
    | cons item rest =>
      by_cases hpl : s.isPlaying = true
      · simpa [hpl] using h
      · have hpl' : s.isPlaying = false := by simpa using hpl
        cases o <;> simp [HandleInv, hpl']

/-- `playNext` with an outcome other than `failLate` preserves the full
handle invariant. -/
theorem playNext_HandleIff (o : PlayOutcome) (ho : o ≠ .failLate) (s : QState)
    (h : HandleIff s) : HandleIff (playNext o s) := by
  unfold playNext
  by_cases hsp : s.isUserSpeaking = true
  · simpa [hsp] using h
  · have hsp' : s.isUserSpeaking = false := by simpa using hsp
    simp only [hsp', Bool.false_eq_true, if_false]
    cases hq : s.queue with
    | nil => exact h
    | cons item rest =>
      by_cases hpl : s.isPlaying = true
      · simpa [hpl] using h
      · have hpl' : s.isPlaying = false := by simpa using hpl
        have hsrc : s.currentSource.isSome = false := by
          cases hsome : s.currentSource.isSome
          · rfl
          · exact absurd (h.mpr hsome) (by simp [hpl'])
        cases o with
        | ok => simp [HandleIff, hpl']
        | failEarly => simp [HandleIff, hpl', hsrc]
        | failLate => exact absurd rfl ho

/-- The interrupt effect keeps the handle non-null whenever playing. -/
theorem interruptEffect_HandleInv (s : QState) (h : HandleInv s) :
    HandleInv (interruptEffect s) := by
  unfold interruptEffect
  split_ifs with hc
  · intro hpl; cases hpl
  · exact h

/-- The interrupt effect preserves the full handle invariant. -/
theorem interruptEffect_HandleIff (s : QState) (h : HandleIff s) :
    HandleIff (interruptEffect s) := by
  unfold interruptEffect
  split_ifs with hc
  · simp [HandleIff]
  · exact h

/-- List helper: the head-or-default of an outcome list avoiding `failLate`
also avoids it. -/
theorem headD_ne_failLate (os : List PlayOutcome) (h : PlayOutcome.failLate ∉ os) :
    os.headD .ok ≠ .failLate := by
  cases os with
  | nil => simp
  | cons o t =>
    intro he
    rw [List.headD_cons] at he
    exact h (by rw [he]; exact List.mem_cons_self _ _)

/-- List helper: the tail of an outcome list avoiding `failLate` avoids it. -/
theorem tail_not_failLate (os : List PlayOutcome) (h : PlayOutcome.failLate ∉ os) :
    PlayOutcome.failLate ∉ os.tail := by
  cases os with
  | nil => simp
  | cons o t => exact fun hm => h (List.mem_cons_of_mem _ hm)

/-- The auto-advance loop keeps the handle non-null whenever playing. -/
theorem autoAdvance_HandleInv (fuel : Nat) :
    ∀ (os : List PlayOutcome) (s : QState), HandleInv s →
      HandleInv (autoAdvance fuel os s) := by
  induction fuel with
  | zero => intro os s h; exact h
  | succ n ih =>
    intro os s h
    unfold autoAdvance
    split_ifs with hc
    · exact ih os.tail _ (playNext_HandleInv _ _ h)
    · exact h

/-- The auto-advance loop with no `failLate` outcome scheduled preserves the
full handle invariant. -/
theorem autoAdvance_HandleIff (fuel : Nat) :
    ∀ (os : List PlayOutcome), PlayOutcome.failLate ∉ os → ∀ (s : QState), HandleIff s →
      HandleIff (autoAdvance fuel os s) := by
  induction fuel with
  | zero => intro os _ s h; exact h
  | succ n ih =>
    intro os hos s h
    unfold autoAdvance
    split_ifs with hc
    · exact ih os.tail (tail_not_failLate os hos) _
        (playNext_HandleIff _ (headD_ne_failLate os hos) _ h)
    · exact h

/-- Every queue step keeps the handle non-null whenever playing. -/
theorem qstep_HandleInv (e : QEvent) (s : QState) (h : HandleInv s) :
    HandleInv (qstep e s) := by
  cases e with
  | enqueue item os =>
    exact autoAdvance_HandleInv _ os _ (interruptEffect_HandleInv _ (fun hpl => h hpl))
  | setSpeaking b os =>
    exact autoAdvance_HandleInv _ os _ (interruptEffect_HandleInv _ (fun hpl => h hpl))
  | ended os =>
    simp only [qstep]
    cases hsrc : s.currentSource with
    | some i =>
      refine autoAdvance_HandleInv _ os _ (interruptEffect_HandleInv _ ?_)
      intro hpl
      cases hpl
    | none => exact h
  | clearQueue => intro hpl; cases hpl

/-- Every queue step allowed by `noFailLate` preserves the full handle
invariant. -/
theorem qstep_HandleIff (e : QEvent) (he : noFailLate e) (s : QState) (h : HandleIff s) :
    HandleIff (qstep e s) := by
  cases e with
  | enqueue item os =>
    exact autoAdvance_HandleIff _ os he _ (interruptEffect_HandleIff _ (by exact h))
  | setSpeaking b os =>
    exact autoAdvance_HandleIff _ os he _ (interruptEffect_HandleIff _ (by exact h))
  | ended os =>
    simp only [qstep]
    cases hsrc : s.currentSource with
    | some i =>
      refine autoAdvance_HandleIff _ os he _ (interruptEffect_HandleIff _ ?_)
      simp [HandleIff]
    | none => exact h
  | clearQueue => simp [qstep, HandleIff]

/-- All states reachable by arbitrary events keep the one-direction handle
invariant. -/
theorem qReach_HandleInv (s : QState) (h : QReach (fun _ => True) s) : HandleInv s := by
  induction h with
  | init => intro hpl; cases hpl
  | step e _ _ ih => exact qstep_HandleInv e _ ih

/-- All states reachable by `noFailLate` events keep the full handle
invariant. -/
theorem qReach_HandleIff (s : QState) (h : QReach noFailLate s) : HandleIff s := by
  induction h with
  | init => simp [HandleIff, qInit]
  | step e _ he ih => exact qstep_HandleIff e he _ ih

/-- `playNext` never activates an identifier that is neither active nor
queued. -/
theorem playNext_NotActive (i : Nat) (o : PlayOutcome) (s : QState)
    (h : NotActive i s) : NotActive i (playNext o s) := by
  obtain ⟨h1, h2⟩ := h
  unfold playNext
  by_cases hsp : s.isUserSpeaking = true
  · simp only [hsp, if_true]
    exact ⟨h1, h2⟩
  · have hsp' : s.isUserSpeaking = false := by simpa using hsp
    simp only [hsp', Bool.false_eq_true, if_false]
    cases hq : s.queue with
    | nil => exact ⟨h1, h2⟩
    | cons item rest =>
      rw [hq] at h2
      have hid : item.id ≠ i := by
        intro he
        exact h2 (by rw [List.map_cons, he]; exact List.mem_cons_self _ _)
      have hrest : i ∉ rest.map QItem.id :=
        fun hm => h2 (by rw [List.map_cons]; exact List.mem_cons_of_mem _ hm)
      by_cases hpl : s.isPlaying = true
      · simp only [hpl, if_true]
        exact ⟨h1, by rw [hq]; exact h2⟩
      · have hpl' : s.isPlaying = false := by simpa using hpl
        cases o with
        | ok =>
          simp only [hpl', Bool.false_eq_true, if_false]
          exact ⟨by simp [Option.some_inj]; exact fun he => hid he, hrest⟩
        | failEarly =>
          simp only [hpl', Bool.false_eq_true, if_false]
          exact ⟨h1, hrest⟩
        | failLate =>
          simp only [hpl', Bool.false_eq_true, if_false]
          exact ⟨by simp [Option.some_inj]; exact fun he => hid he, hrest⟩

/-- The interrupt effect never activates a non-active identifier. -/
theorem interruptEffect_NotActive (i : Nat) (s : QState) (h : NotActive i s) :
    NotActive i (interruptEffect s) := by
  unfold interruptEffect
  split_ifs with hc
  · exact ⟨by simp, h.2⟩
  · exact h

/-- The auto-advance loop never activates a non-active identifier. -/
theorem autoAdvance_NotActive (i : Nat) (fuel : Nat) :
    ∀ (os : List PlayOutcome) (s : QState), NotActive i s →
      NotActive i (autoAdvance fuel os s) := by
  induction fuel with
  | zero => intro os s h; exact h
  | succ n ih =>
    intro os s h
    unfold autoAdvance
    split_ifs with hc
    · exact ih os.tail _ (playNext_NotActive i _ _ h)
    · exact h

/-- No queue step that avoids enqueueing the identifier `i` can make `i`
active or queued again. -/
theorem qstep_NotActive (i : Nat) (e : QEvent) (he : avoidsId i e) (s : QState)
    (h : NotActive i s) : NotActive i (qstep e s) := by
  cases e with
  | enqueue item os =>
    refine autoAdvance_NotActive i _ os _ (interruptEffect_NotActive i _ ?_)
    refine ⟨h.1, ?_⟩
    rw [List.map_append]
    intro hm
    rcases List.mem_append.mp hm with hm | hm
    · exact h.2 hm
    · simp only [List.map_cons, List.map_nil] at hm
      rcases List.mem_singleton.mp hm with rfl
      exact he rfl
  | setSpeaking b os =>
    exact autoAdvance_NotActive i _ os _ (interruptEffect_NotActive i _ ⟨h.1, h.2⟩)
  | ended os =>
    simp only [qstep]
    cases hsrc : s.currentSource with
    | some j =>
      exact autoAdvance_NotActive i _ os _ (interruptEffect_NotActive i _ ⟨by simp, h.2⟩)
    | none => exact h
  | clearQueue => exact ⟨by simp [qstep], by simp [qstep]⟩

/-- Along any run that never re-enqueues the identifier `i`, a non-active `i`
stays non-active. -/
theorem qReachFrom_NotActive (i : Nat) (s0 : QState) (h0 : NotActive i s0) :
    ∀ t, QReachFrom (avoidsId i) s0 t → NotActive i t := by
  intro t ht
  induction ht with
  | refl => exact h0
  | step e _ he ih => exact qstep_NotActive i e he _ ih

/-- When the queue head is playable (non-empty queue, idle, user silent) and
the next scheduled outcome is the untroubled path, one auto-advance round
starts the head item and stops. -/
theorem autoAdvance_plays_head (fuel : Nat) (os : List PlayOutcome) (s : QState)
    (item : QItem) (rest : List QItem) (hq : s.queue = item :: rest)
    (hpl : s.isPlaying = false) (hsp : s.isUserSpeaking = false)
    (hok : os.headD .ok = .ok) :
    autoAdvance (fuel + 1) os s =
      { s with queue := rest, isPlaying := true, currentPlayingText := item.text,
               currentSource := some item.id } := by
  have hp : playNext (os.headD .ok) s =
      { s with queue := rest, isPlaying := true, currentPlayingText := item.text,
               currentSource := some item.id } := by
    rw [hok]
    unfold playNext
    rw [if_neg (by simp [hsp])]
    rw [hq]
    simp [hpl]
  unfold autoAdvance
  rw [if_pos ⟨by rw [hq]; exact List.cons_ne_nil _ _, hpl, hsp⟩]
  rw [hp]
  exact autoAdvance_stuck fuel os.tail _ (by simp)

/-! ### Claims C5 and C6: the playback queue -/

/-- C5: the instant the user-speaking prop turns true while an item is
playing, the active item is stopped and discarded (handle cleared, queue
idle, display text cleared) and, along any continuation that does not
re-enqueue its identifier, it is never active again; the queued items are
untouched and in order, and once the speaking prop returns to false the
head of the queue starts playing automatically. -/
theorem interrupt_stops_discards_and_resumes :
    ∀ (s : QState) (os : List PlayOutcome), s.isPlaying = true → s.isUserSpeaking = false →
      qstep (.setSpeaking true os) s =
        { queue := s.queue, isPlaying := false, currentPlayingText := [],
          currentSource := none, isUserSpeaking := true } ∧
      (∀ i, s.currentSource = some i → i ∉ s.queue.map QItem.id →
        ∀ t, QReachFrom (avoidsId i) (qstep (.setSpeaking true os) s) t →
          t.currentSource ≠ some i) ∧
      (∀ (item : QItem) (rest : List QItem), s.queue = item :: rest →
        qstep (.setSpeaking false []) (qstep (.setSpeaking true os) s) =
          { queue := rest, isPlaying := true, currentPlayingText := item.text,
            currentSource := some item.id, isUserSpeaking := false }) := by
  intro s os hpl hsp
  have key : qstep (.setSpeaking true os) s =
      { queue := s.queue, isPlaying := false, currentPlayingText := [],
        currentSource := none, isUserSpeaking := true } := by
    show runEffects os { s with isUserSpeaking := true } = _
    unfold runEffects
    have hint : interruptEffect { s with isUserSpeaking := true } =
        { queue := s.queue, isPlaying := false, currentPlayingText := [],
          currentSource := none, isUserSpeaking := true } := by
      unfold interruptEffect
      rw [if_pos ⟨rfl, hpl⟩]
    rw [hint]
    exact autoAdvance_stuck _ os _ (by simp)
  refine ⟨key, ?_, ?_⟩
  · intro i hsrc hqid t ht
    have h0 : NotActive i (qstep (.setSpeaking true os) s) := by
      rw [key]
      exact ⟨by simp, hqid⟩
    exact (qReachFrom_NotActive i _ h0 t ht).1
  · intro item rest hq
    rw [key]
    show runEffects []
        { queue := s.queue, isPlaying := false, currentPlayingText := [],
          currentSource := none, isUserSpeaking := false } = _
    unfold runEffects
    have hint2 : interruptEffect
        { queue := s.queue, isPlaying := false, currentPlayingText := [],
          currentSource := none, isUserSpeaking := false } =
        { queue := s.queue, isPlaying := false, currentPlayingText := [],
          currentSource := none, isUserSpeaking := false } := by
      unfold interruptEffect
      rw [if_neg (by simp)]
    rw [hint2, hq]
    simp only [List.length_cons]
    rw [autoAdvance_plays_head rest.length [] _ item rest rfl rfl rfl rfl]

/-- Witness for C5 at a concrete playing state with one queued item: the
interrupt stops item 0, item 0 never plays again along the empty
continuation, and un-speaking starts item 1. -/
theorem interrupt_stops_discards_and_resumes_witness :
    qstep (.setSpeaking true [])
        ⟨[⟨1, ("next").toList⟩], true, ("now").toList, some 0, false⟩ =
      ⟨[⟨1, ("next").toList⟩], false, [], none, true⟩ ∧
    (qstep (.setSpeaking true [])
        ⟨[⟨1, ("next").toList⟩], true, ("now").toList, some 0, false⟩).currentSource ≠
      some 0 ∧
    qstep (.setSpeaking false [])
        (qstep (.setSpeaking true [])
          ⟨[⟨1, ("next").toList⟩], true, ("now").toList, some 0, false⟩) =
      ⟨[], true, ("next").toList, some 1, false⟩ :=
  ⟨(interrupt_stops_discards_and_resumes _ [] rfl rfl).1,
   (interrupt_stops_discards_and_resumes _ [] rfl rfl).2.1 0 rfl (by decide) _
     QReachFrom.refl,
   (interrupt_stops_discards_and_resumes _ [] rfl rfl).2.2 ⟨1, ("next").toList⟩ [] rfl⟩

/-- C6 counterexample: the claim extends the handle invariant to `playNext`'s
failure path, but a playback-start failure that throws after
`currentSourceRef.current = source` (for example `source.start(0)` throwing)
leaves a reachable state that is not playing yet holds a non-null handle. -/
theorem playNext_late_failure_breaks_handle_iff :
    QReach (fun _ => True)
      (qstep (.enqueue ⟨0, ("hi").toList⟩ [.failLate]) qInit) ∧
    ¬((qstep (.enqueue ⟨0, ("hi").toList⟩ [.failLate]) qInit).isPlaying = true ↔
      (qstep (.enqueue ⟨0, ("hi").toList⟩ [.failLate]) qInit).currentSource.isSome = true) :=
  ⟨QReach.step _ QReach.init trivial, by decide⟩

/-- C6 amended: in every reachable state, `isPlaying` implies a non-null
playback handle (and the machine holds at most one handle, so no two items
play concurrently); the full equivalence — `isPlaying` iff the handle is
non-null — holds in every state reachable when each playback-start failure
occurs before the handle assignment, and is preserved by enqueue, playNext
with such failures, the interrupt effect, completion, and clearQueue. -/
theorem playback_handle_invariant :
    (∀ s, QReach (fun _ => True) s → s.isPlaying = true → s.currentSource.isSome = true) ∧
    (∀ s, QReach noFailLate s →
      (s.isPlaying = true ↔ s.currentSource.isSome = true)) := by
  constructor
  · exact fun s h => qReach_HandleInv s h
  · exact fun s h => qReach_HandleIff s h

/-- Witness for C6 amended at a concretely reached playing state: one item
enqueued on the untroubled path is playing with a non-null handle. -/
theorem playback_handle_invariant_witness :
    ((qstep (.enqueue ⟨0, ("hi").toList⟩ [.ok]) qInit).isPlaying = true →
      (qstep (.enqueue ⟨0, ("hi").toList⟩ [.ok]) qInit).currentSource.isSome = true) ∧
    ((qstep (.enqueue ⟨0, ("hi").toList⟩ [.ok]) qInit).isPlaying = true ↔
      (qstep (.enqueue ⟨0, ("hi").toList⟩ [.ok]) qInit).currentSource.isSome = true) :=
  ⟨playback_handle_invariant.1 _ (QReach.step _ QReach.init trivial),
   playback_handle_invariant.2 _ (QReach.step _ QReach.init (by simp [noFailLate]))⟩

/-! ### Claims C7, C8 and C10: session stop, completion, restart -/

/-- C7 counterexample: `stopTranscription` does not clear
`finalizedTranscripts` — stopping a session with one finalized utterance
returns a state that still holds it, contradicting the claim that the
finalized-utterances sequence is empty after `stop()`. -/
theorem stopTranscription_keeps_finalized :
    stopTranscription false false false
        ⟨("draft").toList, [("hello").toList], true, true, true⟩ =
      Except.ok ⟨[], [("hello").toList], false, false, false⟩ ∧
    ([("hello").toList] : List Str) ≠ [] := by
  constructor
  · rfl
  · decide

/-- C7 amended: `stopTranscription` never throws, whichever of the three
resource releases fail, and resets the speaking flag, the fast-path guard,
the transcribing flag and the interim transcript — but leaves
`finalizedTranscripts` exactly as it was. -/
theorem stopTranscription_resets_and_never_throws :
    ∀ (failRecorder failStream failSocket : Bool) (s : STTState),
      stopTranscription failRecorder failStream failSocket s =
        Except.ok { s with isSpeaking := false, speechFinalReceived := false,
                           isTranscribing := false, currentTranscript := [] } := by
  intro fR fS fK s
  rfl

/-- C8 counterexample: at a concrete state where the channel is connected
and transcription is active, the `interview_completed` handler leaves
transcription running (its guard reads the closure-captured mount value
`false` of `isTranscribing`, not the live one) and has already disconnected
the socket while the two-second delay has not yet elapsed (`redirected`
still false) — contradicting both the claim's "stops transcription" and its
"closes the channel after a short fixed delay (still open during it)". -/
theorem channel_closed_before_delay :
    (⟨true, [], [], false, false, ⟨[], [], true, false, false⟩, qInit, true, [], false⟩ :
        PageState).stt.isTranscribing = true ∧
    (⟨true, [], [], false, false, ⟨[], [], true, false, false⟩, qInit, true, [], false⟩ :
        PageState).socketConnected = true ∧
    (interviewCompletedImmediate
        ⟨true, [], [], false, false, ⟨[], [], true, false, false⟩, qInit, true, [],
         false⟩).stt.isTranscribing = true ∧
    (interviewCompletedImmediate
        ⟨true, [], [], false, false, ⟨[], [], true, false, false⟩, qInit, true, [],
         false⟩).socketConnected = false ∧
    (interviewCompletedImmediate
        ⟨true, [], [], false, false, ⟨[], [], true, false, false⟩, qInit, true, [],
         false⟩).redirected = false := by
  refine ⟨rfl, rfl, by decide, by decide, by decide⟩

/-- C8 amended: the `interview_completed` handler synchronously deactivates
the call, clears the playback queue and disconnects the socket, but does not
stop transcription — its guard reads the closure-captured mount-render value
of `isTranscribing`, which is `false` — and the only delayed action is the
redirect to the dashboard, which runs two seconds later and touches nothing
else. -/
theorem interview_completed_behavior :
    ∀ s : PageState,
      (interviewCompletedImmediate s).socketConnected = false ∧
      (interviewCompletedImmediate s).callActive = false ∧
      (interviewCompletedImmediate s).audio.queue = [] ∧
      (interviewCompletedImmediate s).audio.isPlaying = false ∧
      (interviewCompletedImmediate s).stt = s.stt ∧
      (interviewCompletedImmediate s).redirected = s.redirected ∧
      (interviewCompletedDelayed (interviewCompletedImmediate s)).redirected = true ∧
      (interviewCompletedDelayed (interviewCompletedImmediate s)).socketConnected
        = false := by
  intro s
  unfold interviewCompletedImmediate interviewCompletedDelayed capturedIsTranscribing
  simp [qstep]

/-- C10: neither `startCall` nor `stopCall` resets `lastTranscriptRef` or
emits anything, so across a stop and restart the duplicate-suppression
comparison still uses the pre-stop value: a combined answer identical to the
last transmitted one clears the finalized utterances but sends nothing and
changes nothing else. -/
theorem duplicate_suppression_across_restart :
    (∀ s : PageState,
      (startCall s).lastTranscript = s.lastTranscript ∧
      (stopCall s).lastTranscript = s.lastTranscript ∧
      (startCall s).sentResponses = s.sentResponses ∧
      (stopCall s).sentResponses = s.sentResponses) ∧
    (∀ s : PageState, s.stt.isSpeaking = false → s.stt.finalizedTranscripts ≠ [] →
      s.socketConnected = true →
      joinSp s.stt.finalizedTranscripts = s.lastTranscript →
      sendTranscriptEffect s =
        { s with stt := { s.stt with finalizedTranscripts := [] } }) := by
  constructor
  · intro s
    unfold startCall stopCall
    exact ⟨rfl, rfl, rfl, rfl⟩
  · intro s hsp hfin hconn hj
    simp only [sendTranscriptEffect]
    rw [if_pos ⟨hsp, hfin, hconn⟩]
    rw [if_neg (fun h => h.2 hj)]

/-- Witness for C10: a concrete restart (stop then start) keeps the last
transmitted answer, and a textually identical finalized answer afterwards is
suppressed — the finalized list is cleared, nothing new is sent. -/
theorem duplicate_suppression_across_restart_witness :
    sendTranscriptEffect
        (startCall (stopCall
          ⟨true, ("yes").toList, ("buffered").toList, false, false,
           ⟨[], [("yes").toList], true, false, false⟩, qInit, true,
           [("yes").toList], false⟩)) =
      ⟨true, ("yes").toList, [], false, false,
       ⟨[], [], true, false, false⟩, qstep .clearQueue qInit, true,
       [("yes").toList], false⟩ := by
  rw [duplicate_suppression_across_restart.2 _ rfl (by decide) rfl (by decide)]
  decide

end InterviewPrep
